import Mathlib

/-!
Verification of the wikimedia dump-processing pipeline
(src/wikimedia/wikimedia.py) against its specification.

The Python source is shallowly embedded: pure text processing is
modelled over lists of characters and byte values, generators over
lists, and the external XML and wikitext parsing layers over explicit
data types described in the specification.
-/

namespace Wikimedia

/-- Embedding of the index builder (wikimedia.py, lines 16-20).  The
file, bz2 and csv layers are external; the input is the list of parsed
decimal offsets (the first field of each csv row).  The Python code
collects the offsets into a set and sorts ascending, modelled as
deduplication followed by an ascending sort. -/
def _extract_index (offsets : List Nat) : List Nat :=
  List.insertionSort (· ≤ ·) offsets.dedup

/-- Embedding of the pairing step (wikimedia.py, lines 23-26):
zip_longest of the offsets with the offsets shifted by one, padding
the final pair with none. -/
def _pairwise (index : List Nat) : List (Nat × Option Nat) :=
  index.zip (index.tail.map some ++ [none])

lemma lem_pairwise_cons (a b : Nat) (t : List Nat) :
    _pairwise (a :: b :: t) = (a, some b) :: _pairwise (b :: t) := rfl

lemma lem_pairwise_map_fst : ∀ (l : List Nat), (_pairwise l).map Prod.fst = l
  | [] => rfl
  | [_] => rfl
  | a :: b :: t => by
    rw [lem_pairwise_cons]
    simpa using lem_pairwise_map_fst (b :: t)

lemma lem_pairwise_head (b : Nat) (t : List Nat) :
    (_pairwise (b :: t)).head? = some (b, t.head?) := by
  cases t <;> rfl

lemma lem_pairwise_chain : ∀ (l : List Nat),
    List.Chain' (fun r s => r.2 = some s.1) (_pairwise l)
  | [] => List.chain'_nil
  | [a] => List.chain'_singleton (a, none)
  | a :: b :: t => by
    rw [lem_pairwise_cons, List.chain'_cons']
    refine ⟨?_, lem_pairwise_chain (b :: t)⟩
    intro y hy
    rw [lem_pairwise_head] at hy
    simp only [Option.mem_def, Option.some.injEq] at hy
    subst hy
    rfl

lemma lem_pairwise_getLast : ∀ (l : List Nat),
    ∀ p ∈ (_pairwise l).getLast?, p.2 = none
  | [] => by simp [_pairwise]
  | [a] => by simp [_pairwise]
  | a :: b :: [] => by simp [_pairwise]
  | a :: b :: c :: t => by
    rw [lem_pairwise_cons a b (c :: t), lem_pairwise_cons b c t,
      List.getLast?_cons_cons, ← lem_pairwise_cons b c t]
    exact lem_pairwise_getLast (b :: c :: t)

lemma lem_extract_index_sorted (offsets : List Nat) :
    List.Sorted (· < ·) (_extract_index offsets) := by
  have hs : List.Sorted (· ≤ ·) (_extract_index offsets) :=
    List.sorted_insertionSort (· ≤ ·) offsets.dedup
  have hp : List.Perm (_extract_index offsets) offsets.dedup :=
    List.perm_insertionSort (· ≤ ·) offsets.dedup
  exact hs.lt_of_le (hp.nodup_iff.mpr offsets.nodup_dedup)

/-- C1: for every multiset of parseable offsets, the ranges produced by
pairing the sorted deduplicated index have strictly increasing starts,
are contiguous (each end is the next start), end with an unset final
end, and the offsets 5, 5, 20 produce exactly [(5, 20), (20, none)]. -/
theorem C1_build_index_ranges (offsets : List Nat) :
    List.Sorted (· < ·) ((_pairwise (_extract_index offsets)).map Prod.fst)
    ∧ List.Chain' (fun r s => r.2 = some s.1) (_pairwise (_extract_index offsets))
    ∧ (∀ p ∈ (_pairwise (_extract_index offsets)).getLast?, p.2 = none)
    ∧ _pairwise (_extract_index [5, 5, 20]) = [(5, some 20), (20, none)] := by
  refine ⟨?_, lem_pairwise_chain _, lem_pairwise_getLast _, by decide⟩
  rw [lem_pairwise_map_fst]
  exact lem_extract_index_sorted offsets

/-- C1 witness: the final range of the index built from offsets
5, 5, 20 exists and carries an unset end. -/
theorem C1_build_index_ranges_witness :
    (20, (none : Option Nat)) ∈ (_pairwise (_extract_index [5, 5, 20])).getLast?
    ∧ ((20 : Nat), (none : Option Nat)).2 = none :=
  ⟨by decide, (C1_build_index_ranges [5, 5, 20]).2.2.1 (20, none) (by decide)⟩

/-- One page element of a decompressed stream, as seen by the
extractor (wikimedia.py, lines 39-51): the namespace field, whether a
redirect marker element is present, the id and title fields, and the
revision text.  ElementTree reports absent or empty text content of
the text element as None, modelled as an Option. -/
structure Page where
  ns : String
  redirect : Bool
  id : String
  title : String
  text : Option String
  deriving DecidableEq

/-- Embedding of the per-stream extractor loop (wikimedia.py, lines
39-56).  The file, bz2 and XML layers are external; the input is the
list of parsed page elements of the stream, in document order.  Pages
outside namespace "0" or carrying a redirect marker are skipped, then
pages whose revision text is None are skipped, and the remaining pages
yield (id, title, raw_content) triples. -/
def _extract_content (pages : List Page) : List (String × String × String) :=
  pages.filterMap fun p =>
    if p.ns ≠ "0" ∨ p.redirect = true then none
    else p.text.map fun raw => (p.id, p.title, raw)

/-- C4: every triple yielded by the extractor has non-empty raw
markup, given the ElementTree invariant that a text field is either
None or a non-empty string (an empty text element parses to None, so
some "" never occurs). -/
theorem C4_raw_markup_nonempty (pages : List Page)
    (htext : ∀ p ∈ pages, p.text ≠ some "") :
    ∀ a ∈ _extract_content pages, a.2.2 ≠ "" := by
  intro a ha
  rw [_extract_content, List.mem_filterMap] at ha
  obtain ⟨p, hp, hfa⟩ := ha
  split at hfa
  · exact Option.noConfusion hfa
  · cases htxt : p.text with
    | none => rw [htxt] at hfa; exact Option.noConfusion hfa
    | some raw =>
      rw [htxt] at hfa
      simp only [Option.map_some', Option.some.injEq] at hfa
      subst hfa
      intro hraw
      exact htext p hp (htxt.trans (congrArg some hraw))

/-- C4 witness: a concrete stream with a main-namespace page whose
revision text is "wikitext" satisfies the ElementTree invariant and
every extracted triple has non-empty markup. -/
theorem C4_raw_markup_nonempty_witness :
    ("1", "T", "wikitext") ∈
      _extract_content [⟨"0", false, "1", "T", some "wikitext"⟩]
    ∧ ("1", "T", "wikitext").2.2 ≠ "" :=
  ⟨by decide,
    C4_raw_markup_nonempty [⟨"0", false, "1", "T", some "wikitext"⟩]
      (by decide) ("1", "T", "wikitext") (by decide)⟩

/-- C6: a stream all of whose pages are outside the main namespace or
are redirects extracts to the empty sequence. -/
theorem C6_extract_empty (pages : List Page)
    (h : ∀ p ∈ pages, p.ns ≠ "0" ∨ p.redirect = true) :
    _extract_content pages = [] := by
  rw [_extract_content, List.filterMap_eq_nil_iff]
  intro p hp
  rw [if_pos (h p hp)]

/-- C6 witness: a concrete stream made of a talk-namespace page and a
main-namespace redirect extracts to nothing. -/
theorem C6_extract_empty_witness :
    _extract_content
      [⟨"1", false, "2", "Talk", some "t"⟩, ⟨"0", true, "3", "R", some "r"⟩]
      = [] :=
  C6_extract_empty _ (by decide)

/-- Modelled from the spec: a wikitext markup node of the section tree
built by the external parser (mwparserfromhell) — plain text, a
wikilink with target and optional display text, a tag with name and
contents, or a heading. -/
inductive Node where
  | text (s : String)
  | wikilink (title : String) (disp : Option String)
  | tag (name : String) (contents : String)
  | heading (title : String) (level : Nat)
  deriving DecidableEq

/-- Modelled from the spec: the per-language media alias table
(MEDIA_ALIASES) is configuration not present in src; its entries are
unspecified and unlisted languages use no extra aliases. -/
def MEDIA_ALIASES (_language : String) : List String := []

/-- Modelled from the spec: the per-language category alias table
(CAT_ALIASES) is configuration not present in src; its entries are
unspecified and unlisted languages use no extra aliases. -/
def CAT_ALIASES (_language : String) : List String := []

/-- Character list of a string lowered characterwise, for the
IGNORECASE regex matches of the cleaner. -/
def lowerChars (s : String) : List Char := s.data.map Char.toLower

/-- Anchored case-insensitive namespace match: whether t begins with
the name p immediately followed by a colon, as the compiled regexes of
lines 82 and 93 test. -/
def matchNS (p : String) (t : String) : Bool :=
  List.isPrefixOf (lowerChars p ++ [':']) (lowerChars t)

/-- The media namespace alternation of line 81. -/
def media_names (language : String) : List String :=
  ["File", "Image", "Media"] ++ MEDIA_ALIASES language

/-- Embedding of rm_wikilink (lines 84-85): whether a wikilink target
matches the anchored media-namespace alternation. -/
def rm_wikilink (language : String) (title : String) : Bool :=
  (media_names language).any fun p => matchNS p title

/-- The category namespace alternation of line 92. -/
def cat_names (language : String) : List String :=
  ["Category"] ++ CAT_ALIASES language

/-- Embedding of is_category (lines 95-96). -/
def is_category (language : String) (title : String) : Bool :=
  (cat_names language).any fun p => matchNS p title

/-- Embedding of re.sub(re_clean_wikilink, "", text) at line 100: the
anchored pattern matches at most once, at the start, removing the
first alternation name that matches plus the colon. -/
def sub_clean_wikilink (language : String) (s : String) : String :=
  match (cat_names language).find? (fun p => matchNS p s) with
  | some p => String.mk (s.data.drop (p.length + 1))
  | none => s

/-- Modelled from the spec: Wikilink.__strip__ of the external parser
returns the display text when present and non-empty (Python
truthiness), else the link target. -/
def wlStrip (title : String) (disp : Option String) : String :=
  match disp with
  | some s => if s = "" then title else s
  | none => title

/-- Embedding of clean_wikilink (lines 98-101): the node's display
text is set, in place, to the stripped text with the category-prefix
portion removed. -/
def clean_wikilink (language : String) (title : String) (disp : Option String) :
    Node :=
  Node.wikilink title (some (sub_clean_wikilink language (wlStrip title disp)))

/-- The wikilink pass over one section (lines 120-124): media links
are removed, then category links are rewritten in place. -/
def linkPass (language : String) (sec : List Node) : List Node :=
  (sec.filter fun n =>
      match n with
      | Node.wikilink t _ => !(rm_wikilink language t)
      | _ => true).map fun n =>
    match n with
    | Node.wikilink t d =>
      if is_category language t then clean_wikilink language t d else n
    | _ => n

/-- The tag pass over one section (lines 88-89 and 125-126): ref and
table tags are removed. -/
def tagPass (sec : List Node) : List Node :=
  sec.filter fun n =>
    match n with
    | Node.tag name _ => !(name == "ref" || name == "table")
    | _ => true

/-- Both structural passes over one section. -/
def cleanSection (language : String) (sec : List Node) : List Node :=
  tagPass (linkPass language sec)

/-- Modelled from the spec: per-node markup stripping of the external
parser — text is itself, a wikilink contributes its display text
(target when absent or empty), a surviving tag its contents, a heading
its title. -/
def stripNode : Node → String
  | Node.text s => s
  | Node.wikilink t d => wlStrip t d
  | Node.tag _ contents => contents
  | Node.heading t _ => t

/-- Modelled from the spec: strip_code of a section concatenates the
stripped nodes. -/
def stripCodeChars : List Node → List Char
  | [] => []
  | n :: rest => (stripNode n).data ++ stripCodeChars rest

/-- Python str.strip() whitespace: exactly the characters
str.isspace() accepts — tab through carriage return, the information
separators, space, next line, no-break space, the Ogham space mark,
the Unicode space range U+2000 to U+200A, the line and paragraph
separators, the narrow no-break space, the medium mathematical space
and the ideographic space. -/
def isWS (c : Char) : Bool :=
  let n := c.toNat
  (9 ≤ n && n ≤ 13) || (28 ≤ n && n ≤ 32) || n == 133 || n == 160 ||
    n == 5760 || (8192 ≤ n && n ≤ 8202) || n == 8232 || n == 8233 ||
    n == 8239 || n == 8287 || n == 12288

/-- Python str.strip(): drop leading and trailing whitespace. -/
def trimChars (l : List Char) : List Char :=
  ((l.dropWhile isWS).reverse.dropWhile isWS).reverse

/-- The character class of re_rm_magic (line 78). -/
def isUpperAZ (c : Char) : Bool := decide ('A' ≤ c) && decide (c ≤ 'Z')

/-- Scanner for re.sub(re_rm_magic, "", s) with re_rm_magic of line
78, the pattern of two underscores, a greedy run of uppercase ASCII
letters and two underscores: leftmost non-overlapping matches are
deleted, scanning resumes after each deleted match and advances one
character on failure.  The fuel argument, instantiated with the input
length, only makes the recursion structural. -/
def rmMagicFuel : Nat → List Char → List Char
  | 0, l => l
  | _ + 1, [] => []
  | fuel + 1, '_' :: '_' :: rest =>
    (match rest.dropWhile isUpperAZ with
     | '_' :: '_' :: rest3 => rmMagicFuel fuel rest3
     | _ => '_' :: rmMagicFuel fuel ('_' :: rest))
  | fuel + 1, c :: rest => c :: rmMagicFuel fuel rest

/-- re.sub(re_rm_magic, "", s) over a character list. -/
def rmMagicList (l : List Char) : List Char := rmMagicFuel l.length l

/-- Decision of whether the magic-word pattern matches anywhere,
mirroring the scanner. -/
def hasMagicFuel : Nat → List Char → Bool
  | 0, _ => false
  | _ + 1, [] => false
  | fuel + 1, '_' :: '_' :: rest =>
    (match rest.dropWhile isUpperAZ with
     | '_' :: '_' :: _ => true
     | _ => hasMagicFuel fuel ('_' :: rest))
  | fuel + 1, _ :: rest => hasMagicFuel fuel rest

/-- Whether the magic-word pattern of line 78 matches anywhere. -/
def hasMagicList (l : List Char) : Bool := hasMagicFuel l.length l

/-- One section's contribution at line 128:
re.sub(re_rm_magic, "", section.strip_code().strip()). -/
def cleanSectionChars (language : String) (sec : List Node) : List Char :=
  rmMagicList (trimChars (stripCodeChars (cleanSection language sec)))

/-- The "\n\n".join of line 129. -/
def joinSectionsChars : List (List Char) → List Char
  | [] => []
  | [t] => t
  | t :: rest => t ++ '\n' :: '\n' :: joinSectionsChars rest

/-- Embedding of _parse_and_clean_wikicode (lines 73-129) over the
section list produced by the external parser's get_sections. -/
def _parse_and_clean_wikicode (sections : List (List Node)) (language : String) :
    String :=
  String.mk (joinSectionsChars (sections.map (cleanSectionChars language)))

/-- Modelled from the spec: parsing plain text that contains no markup
construct yields a single lead section holding one text node. -/
def parsePlain (s : String) : List (List Node) := [[Node.text s]]

/-- The bytes urllib.parse.quote leaves unencoded: unreserved bytes
(letters, digits, underscore, dot, hyphen, tilde) plus the default
safe character, the slash. -/
def isSafeByte (b : Nat) : Bool :=
  (65 ≤ b && b ≤ 90) || (97 ≤ b && b ≤ 122) || (48 ≤ b && b ≤ 57) ||
    b == 95 || b == 46 || b == 45 || b == 126 || b == 47

/-- Uppercase hexadecimal digit character code. -/
def hexDigitCode (n : Nat) : Nat := if n < 10 then 48 + n else 55 + n

/-- urllib.parse.quote of one byte: kept verbatim when safe, else a
percent sign and two uppercase hexadecimal digits. -/
def quoteByte (b : Nat) : List Nat :=
  if isSafeByte b then [b] else [37, hexDigitCode (b / 16), hexDigitCode (b % 16)]

/-- urllib.parse.quote over the UTF-8 bytes of the title, producing
character codes. -/
def quoteCodes : List Nat → List Nat
  | [] => []
  | b :: rest => quoteByte b ++ quoteCodes rest

/-- Value of a hexadecimal digit character code. -/
def hexVal (c : Nat) : Option Nat :=
  if 48 ≤ c ∧ c ≤ 57 then some (c - 48)
  else if 65 ≤ c ∧ c ≤ 70 then some (c - 55)
  else if 97 ≤ c ∧ c ≤ 102 then some (c - 87)
  else none

/-- Percent-decoding (urllib.parse.unquote) at byte level: a percent
sign followed by two hexadecimal digits decodes to one byte, anything
else passes through. -/
def unquoteCodes : List Nat → List Nat
  | [] => []
  | 37 :: h :: l :: rest =>
    (match hexVal h, hexVal l with
     | some hv, some lv => (16 * hv + lv) :: unquoteCodes rest
     | _, _ => 37 :: unquoteCodes (h :: l :: rest))
  | c :: rest => c :: unquoteCodes rest

/-- Character codes of a string literal. -/
def strCodes (s : String) : List Nat := s.data.map Char.toNat

/-- UTF-8 encoding of one character, as byte values. -/
def utf8EncodeCharNat (c : Char) : List Nat :=
  let n := c.toNat
  if n < 128 then [n]
  else if n < 2048 then [192 + n / 64, 128 + n % 64]
  else if n < 65536 then [224 + n / 4096, 128 + n / 64 % 64, 128 + n % 64]
  else [240 + n / 262144, 128 + n / 4096 % 64, 128 + n / 64 % 64, 128 + n % 64]

/-- UTF-8 bytes of a string. -/
def utf8Bytes (s : String) : List Nat :=
  (s.data.map utf8EncodeCharNat).flatten

/-- String from character codes. -/
def codesToStr (l : List Nat) : String := String.mk (l.map Char.ofNat)

/-- urllib.parse.quote at string level: UTF-8 encode, then
percent-encode the bytes. -/
def quote (title : String) : String := codesToStr (quoteCodes (utf8Bytes title))

/-- Embedding of _construct_url (lines 132-134). -/
def _construct_url (title : String) (language : String) : String :=
  "https://" ++ language ++ ".wikisource.org/wiki/" ++ quote title

/-- Byte-level view of _construct_url, with the title given as its
UTF-8 bytes, for round-trip reasoning. -/
def construct_url_codes (language : String) (title : List Nat) : List Nat :=
  strCodes "https://" ++ strCodes language ++ strCodes ".wikisource.org/wiki/"
    ++ quoteCodes title

/-- The final path segment of a URL: the character codes after the
last slash. -/
def lastSegment (url : List Nat) : List Nat :=
  (url.reverse.takeWhile fun c => c != 47).reverse

/-- The output record of the cleaner, always carrying all four
fields. -/
structure CleanedArticle where
  id : String
  url : String
  title : String
  text : String
  deriving DecidableEq

/-- Embedding of _clean_content (lines 59-70).  Wikitext parsing is
external, so the third input component carries its outcome: none
models a mwparserfromhell ParserError (logged and dropped), some the
parsed section list. -/
def _clean_content (inputs : String × String × Option (List (List Node)))
    (language : String) (min_text_length : Nat) :
    List (String × CleanedArticle) :=
  match inputs with
  | (_, _, none) => []
  | (id_, title, some wikicode) =>
    let text := _parse_and_clean_wikicode wikicode language
    if text = "" ∨ text.length < min_text_length then []
    else [(id_, ⟨id_, _construct_url title language, title, text⟩)]

/-- C3: a media-type link node is removed from its section, so the
cleaned section text is that of the section without the node. -/
theorem C3_media_link_removed (language t : String) (d : Option String)
    (pre post : List Node) (hm : rm_wikilink language t = true) :
    cleanSectionChars language (pre ++ Node.wikilink t d :: post)
      = cleanSectionChars language (pre ++ post) := by
  have hlink : linkPass language (pre ++ Node.wikilink t d :: post)
      = linkPass language (pre ++ post) := by
    simp [linkPass, List.filter_append, hm]
  rw [cleanSectionChars, cleanSection, hlink, ← cleanSection, ← cleanSectionChars]

/-- C3 witness: a thumbnail file link inside a sentence disappears
entirely from the cleaned text. -/
theorem C3_media_link_removed_witness :
    cleanSectionChars "en"
        [Node.text "Hello", Node.wikilink "File:Cat.jpg" (some "thumb"),
          Node.text " world"]
      = cleanSectionChars "en" [Node.text "Hello", Node.text " world"] :=
  C3_media_link_removed "en" "File:Cat.jpg" (some "thumb")
    [Node.text "Hello"] [Node.text " world"] (by decide)

/-- C2 counterexample: the category link whose target is
Category:Category:Foo is rewritten to the text Category:Foo, which
still contains the namespace-name Category case-insensitively, so the
rewritten text is not always free of the original prefix substring. -/
theorem C2_category_rewrite_counterexample :
    cleanSection "en" [Node.wikilink "Category:Category:Foo" none]
      = [Node.wikilink "Category:Category:Foo" (some "Category:Foo")]
    ∧ String.mk (cleanSectionChars "en" [Node.wikilink "Category:Category:Foo" none])
      = "Category:Foo"
    ∧ List.IsInfix (lowerChars "Category") (lowerChars "Category:Foo") := by
  refine ⟨by decide, by decide, by decide⟩

/-- C2 amended: a category-type link node (matching the category
alternation but not the media one) is rewritten in place to its
display text with the single leading category-prefix-plus-colon match
stripped; repeated prefixes can survive in the rewritten text. -/
theorem C2_category_rewrite (language t : String) (d : Option String)
    (pre post : List Node) (hm : rm_wikilink language t = false)
    (hc : is_category language t = true) :
    cleanSection language (pre ++ Node.wikilink t d :: post)
      = cleanSection language pre
        ++ Node.wikilink t (some (sub_clean_wikilink language (wlStrip t d)))
          :: cleanSection language post := by
  simp [cleanSection, linkPass, tagPass, List.filter_append, List.map_append,
    hm, hc, clean_wikilink]

/-- C2 witness: the category link Category:Animals with no display
text is rewritten in place to the plain text Animals. -/
theorem C2_category_rewrite_witness :
    cleanSection "en" [Node.wikilink "Category:Animals" none]
      = [Node.wikilink "Category:Animals" (some "Animals")] := by
  have h := C2_category_rewrite "en" "Category:Animals" none [] []
    (by decide) (by decide)
  simpa [cleanSection, linkPass, tagPass] using h

lemma lem_dropWhile_upper_all : ∀ (up l : List Char),
    (∀ c ∈ up, isUpperAZ c = true) →
    (up ++ '_' :: l).dropWhile isUpperAZ = '_' :: l
  | [], l => by
    intro _
    have h0 : isUpperAZ '_' = false := by decide
    rw [List.nil_append, List.dropWhile_cons, h0]
    simp
  | c :: cs, l => by
    intro h
    have hc : isUpperAZ c = true := h c (List.mem_cons_self c cs)
    simp only [List.cons_append, List.dropWhile_cons, hc, if_true]
    exact lem_dropWhile_upper_all cs l fun x hx => h x (List.mem_cons_of_mem c hx)

/-- C9 counterexample: deletion of the leftmost match can splice a new
magic-word token together from the surviving characters, so cleaning
does not delete every substring of the magic-word shape: the input
with characters three underscores, A, three underscores, A, B, two
underscores cleans to the six characters of a magic token, which a
second pass deletes. -/
theorem C9_magic_counterexample :
    rmMagicList ("___A___AB__".data) = "__AB__".data
    ∧ hasMagicList ("__AB__".data) = true
    ∧ rmMagicList ("__AB__".data) = [] := by
  refine ⟨by decide, by decide, by decide⟩

/-- C9 amended: the magic-word scanner deletes leftmost
non-overlapping matches of the pattern of line 78, whose letter run
may be empty: any token of two underscores, zero or more uppercase
ASCII letters and two underscores is deleted whole, and in particular
the four-underscore token makes a section whose text is exactly that
token clean to the empty string. -/
theorem C9_magic_zero_letters (language : String) (up : List Char)
    (h : ∀ c ∈ up, isUpperAZ c = true) :
    rmMagicList ('_' :: '_' :: (up ++ ['_', '_'])) = []
    ∧ String.mk (cleanSectionChars language [Node.text "____"]) = "" := by
  constructor
  · have hlen : ('_' :: '_' :: (up ++ ['_', '_'])).length = up.length + 3 + 1 := by
      simp +arith [List.length_append]
    have hd : (up ++ '_' :: ['_']).dropWhile isUpperAZ = '_' :: ['_'] :=
      lem_dropWhile_upper_all up ['_'] h
    rw [rmMagicList, hlen, rmMagicFuel, hd]
    show rmMagicFuel (up.length + 3) [] = []
    rw [show up.length + 3 = up.length + 2 + 1 from rfl, rmMagicFuel]
  · have hsec : cleanSection language [Node.text "____"] = [Node.text "____"] := by
      simp [cleanSection, linkPass, tagPass]
    rw [cleanSectionChars, hsec]
    decide

/-- C9 witness: the four-underscore token alone is deleted by the
scanner and cleans to an empty section text. -/
theorem C9_magic_zero_letters_witness :
    rmMagicList ['_', '_', '_', '_'] = []
    ∧ String.mk (cleanSectionChars "en" [Node.text "____"]) = "" :=
  C9_magic_zero_letters "en" [] (by decide)

lemma lem_rmMagic_of_noMagic : ∀ (fuel : Nat) (l : List Char),
    hasMagicFuel fuel l = false → rmMagicFuel fuel l = l := by
  intro fuel l
  induction fuel, l using rmMagicFuel.induct with
  | case1 l => intro _; rfl
  | case2 n => intro _; rfl
  | case3 fuel rest rest3 hdrop _ =>
    intro h
    simp only [hasMagicFuel, hdrop] at h
    exact Bool.noConfusion h
  | case4 fuel rest hdrop ih =>
    intro h
    simp only [hasMagicFuel, hdrop] at h
    simp only [rmMagicFuel]
    rw [ih h]
  | case5 fuel c rest hne ih =>
    intro h
    have h2 : hasMagicFuel fuel rest = false := by
      rw [hasMagicFuel.eq_def] at h
      split at h
      · rename_i heq
        exact absurd heq (Nat.succ_ne_zero fuel)
      · rename_i heq
        simp at heq
      · rename_i heq
        simp only [List.cons.injEq] at heq
        exact (hne _ heq.1 heq.2).elim
      · rename_i heqf heq
        simp only [List.cons.injEq] at heq
        rw [show fuel = _ from Nat.succ.inj heqf, heq.2]
        exact h
    rw [rmMagicFuel.eq_def]
    split
    · rename_i heq
      simp at heq
    · rename_i heq
      simp at heq
    · rename_i heq
      simp only [List.cons.injEq] at heq
      exact (hne _ heq.1 heq.2).elim
    · rename_i heqf heq
      simp only [List.cons.injEq] at heq
      rw [← heq.1, ← heq.2, ← show fuel = _ from Nat.succ.inj heqf, ih h2]

/-- C8 counterexample: magic-word removal happens after whitespace
trimming and can splice new magic tokens, so cleaning is not
idempotent: the plain text with characters underscore, underscore, A,
underscore, underscore, space, x cleans to a text with a leading
space, and cleaning that output again trims the space away, yielding a
different text. -/
theorem C8_idempotence_counterexample :
    _parse_and_clean_wikicode (parsePlain "__A__ x") "en" = " x"
    ∧ _parse_and_clean_wikicode (parsePlain " x") "en" = "x"
    ∧ _parse_and_clean_wikicode
        (parsePlain (_parse_and_clean_wikicode (parsePlain "__A__ x") "en")) "en"
      ≠ _parse_and_clean_wikicode (parsePlain "__A__ x") "en" := by
  refine ⟨by decide, by decide, by decide⟩

/-- C8 amended: re-cleaning an already-cleaned plain-text article
yields the same text whenever that text has no leading or trailing
whitespace and no remaining magic-word match; without those two
conditions a second cleaning can trim or delete further. -/
theorem C8_clean_idempotent (language s : String)
    (h1 : hasMagicList s.data = false) (h2 : trimChars s.data = s.data) :
    _parse_and_clean_wikicode (parsePlain s) language = s := by
  have hsec : cleanSection language [Node.text s] = [Node.text s] := by
    simp [cleanSection, linkPass, tagPass]
  rw [_parse_and_clean_wikicode, parsePlain]
  simp only [List.map_cons, List.map_nil]
  rw [show joinSectionsChars [cleanSectionChars language [Node.text s]]
      = cleanSectionChars language [Node.text s] from rfl]
  rw [cleanSectionChars, hsec]
  rw [show stripCodeChars [Node.text s] = s.data ++ [] from rfl, List.append_nil]
  rw [h2, rmMagicList, lem_rmMagic_of_noMagic _ _ h1]

/-- C8 witness: a magic-free, trimmed plain text survives a second
cleaning unchanged. -/
theorem C8_clean_idempotent_witness :
    _parse_and_clean_wikicode (parsePlain "Hello world") "en" = "Hello world" :=
  C8_clean_idempotent "en" "Hello world" (by decide) (by decide)

lemma lem_hexVal_digit (n : Nat) (hn : n < 16) :
    hexVal (hexDigitCode n) = some n := by
  by_cases h10 : n < 10
  · rw [hexDigitCode, if_pos h10, hexVal, if_pos (by omega)]
    congr 1
    omega
  · rw [hexDigitCode, if_neg h10, hexVal, if_neg (by omega), if_pos (by omega)]
    congr 1
    omega

lemma lem_unquote_cons (c : Nat) (rest : List Nat) (hc : c ≠ 37) :
    unquoteCodes (c :: rest) = c :: unquoteCodes rest := by
  simp [unquoteCodes, hc]

lemma lem_unquote_quoteByte (b : Nat) (hb : b < 256) (rest : List Nat) :
    unquoteCodes (quoteByte b ++ rest) = b :: unquoteCodes rest := by
  rw [quoteByte]
  by_cases hs : isSafeByte b = true
  · rw [if_pos hs]
    have hb37 : b ≠ 37 := by
      intro he
      rw [he] at hs
      exact Bool.noConfusion hs
    rw [List.singleton_append, lem_unquote_cons b rest hb37]
  · rw [if_neg hs]
    simp only [List.cons_append, List.nil_append]
    rw [unquoteCodes.eq_def]
    simp [lem_hexVal_digit (b / 16) (by omega),
      lem_hexVal_digit (b % 16) (by omega)]
    omega

lemma lem_unquote_quoteCodes : ∀ (bs : List Nat), (∀ b ∈ bs, b < 256) →
    unquoteCodes (quoteCodes bs) = bs
  | [] => fun _ => by decide
  | b :: rest => fun h => by
    rw [quoteCodes, lem_unquote_quoteByte b (h b (List.mem_cons_self b rest))]
    rw [lem_unquote_quoteCodes rest fun x hx => h x (List.mem_cons_of_mem b hx)]

lemma lem_takeWhile_all (p : Nat → Bool) : ∀ (l : List Nat) (y : Nat) (r : List Nat),
    (∀ x ∈ l, p x = true) → p y = false → (l ++ y :: r).takeWhile p = l
  | [], y, r => by
    intro _ hy
    simp [List.takeWhile_cons, hy]
  | x :: xs, y, r => by
    intro h hy
    rw [List.cons_append, List.takeWhile_cons,
      if_pos (h x (List.mem_cons_self x xs))]
    rw [lem_takeWhile_all p xs y r (fun z hz => h z (List.mem_cons_of_mem x hz)) hy]

lemma lem_lastSegment_append (p q : List Nat) (hq : ∀ c ∈ q, c ≠ 47) :
    lastSegment (p ++ 47 :: q) = q := by
  rw [lastSegment, List.reverse_append, List.reverse_cons, List.append_assoc,
    List.singleton_append]
  rw [lem_takeWhile_all _ q.reverse 47 p.reverse ?_ (by decide)]
  · exact List.reverse_reverse q
  · intro x hx
    have hx47 : x ≠ 47 := hq x (List.mem_reverse.mp hx)
    simp [hx47]

lemma lem_hexDigit_ne47 (n : Nat) : hexDigitCode n ≠ 47 := by
  rw [hexDigitCode]
  split <;> omega

lemma lem_quoteByte_ne47 (b : Nat) (hb : b ≠ 47) : ∀ c ∈ quoteByte b, c ≠ 47 := by
  intro c hc
  rw [quoteByte] at hc
  split at hc
  · rw [List.mem_singleton] at hc
    rw [hc]
    exact hb
  · simp only [List.mem_cons, List.not_mem_nil, or_false] at hc
    rcases hc with h37 | hh | hl
    · rw [h37]; omega
    · rw [hh]; exact lem_hexDigit_ne47 _
    · rw [hl]; exact lem_hexDigit_ne47 _

lemma lem_quoteCodes_ne47 : ∀ (bs : List Nat), (∀ b ∈ bs, b ≠ 47) →
    ∀ c ∈ quoteCodes bs, c ≠ 47
  | [] => by intro _ c hc; exact absurd hc (List.not_mem_nil c)
  | b :: rest => by
    intro h c hc
    rw [quoteCodes, List.mem_append] at hc
    rcases hc with hc | hc
    · exact lem_quoteByte_ne47 b (h b (List.mem_cons_self b rest)) c hc
    · exact lem_quoteCodes_ne47 rest (fun x hx => h x (List.mem_cons_of_mem b hx)) c hc

/-- C7 counterexample: quote keeps the slash unencoded (it is in the
safe set), so a title containing a slash, here the UTF-8 bytes of A/B,
adds a path separator and percent-decoding only the final path segment
returns B, not the original title. -/
theorem C7_url_roundtrip_counterexample :
    utf8Bytes "A/B" = [65, 47, 66]
    ∧ unquoteCodes (lastSegment (construct_url_codes "en" [65, 47, 66]))
      ≠ [65, 47, 66] := by
  refine ⟨by decide, by decide⟩

/-- C7 amended: for every language and every title whose UTF-8 bytes
contain no slash, percent-decoding the final path segment of the
constructed URL returns the title's bytes; titles containing a slash
break the round trip because quote leaves the slash unencoded. -/
theorem C7_url_roundtrip (language : String) (title : List Nat)
    (h1 : ∀ b ∈ title, b < 256) (h2 : ∀ b ∈ title, b ≠ 47) :
    unquoteCodes (lastSegment (construct_url_codes language title)) = title := by
  have hsplit : strCodes ".wikisource.org/wiki/"
      = strCodes ".wikisource.org/wiki" ++ [47] := by decide
  rw [construct_url_codes, hsplit]
  rw [show strCodes "https://" ++ strCodes language
        ++ (strCodes ".wikisource.org/wiki" ++ [47]) ++ quoteCodes title
      = (strCodes "https://" ++ strCodes language
          ++ strCodes ".wikisource.org/wiki") ++ 47 :: quoteCodes title by
    simp [List.append_assoc]]
  rw [lem_lastSegment_append _ _ (lem_quoteCodes_ne47 title h2)]
  exact lem_unquote_quoteCodes title h1

/-- C7 witness: the title bytes of Cat Dog (a space, percent-encoded)
round-trip through URL construction and segment decoding. -/
theorem C7_url_roundtrip_witness :
    unquoteCodes (lastSegment
        (construct_url_codes "en" [67, 97, 116, 32, 68, 111, 103]))
      = [67, 97, 116, 32, 68, 111, 103] :=
  C7_url_roundtrip "en" [67, 97, 116, 32, 68, 111, 103] (by decide) (by decide)

/-- C5: the cleaner emits a record exactly when the markup parsed and
the joined cleaned text is non-empty and at least min_text_length
characters long; whatever is emitted is the single complete record
built from the parsed text, never a partial one. -/
theorem C5_clean_emits_iff (id_ title : String)
    (parsed : Option (List (List Node))) (language : String)
    (min_text_length : Nat) :
    (_clean_content (id_, title, parsed) language min_text_length ≠ [] ↔
      ∃ w, parsed = some w ∧ _parse_and_clean_wikicode w language ≠ ""
        ∧ min_text_length ≤ (_parse_and_clean_wikicode w language).length)
    ∧ ∀ r ∈ _clean_content (id_, title, parsed) language min_text_length,
        ∃ w, parsed = some w
          ∧ r = (id_, ⟨id_, _construct_url title language, title,
              _parse_and_clean_wikicode w language⟩) := by
  cases parsed with
  | none =>
    refine ⟨by simp [_clean_content], by simp [_clean_content]⟩
  | some w =>
    have hout : _clean_content (id_, title, some w) language min_text_length
        = if _parse_and_clean_wikicode w language = ""
            ∨ (_parse_and_clean_wikicode w language).length < min_text_length
          then []
          else [(id_, ⟨id_, _construct_url title language, title,
              _parse_and_clean_wikicode w language⟩)] := rfl
    rw [hout]
    by_cases hc : _parse_and_clean_wikicode w language = ""
        ∨ (_parse_and_clean_wikicode w language).length < min_text_length
    · rw [if_pos hc]
      refine ⟨⟨fun hne => absurd rfl hne, ?_⟩,
        fun r hr => absurd hr (List.not_mem_nil r)⟩
      rintro ⟨w2, hw2, hne, hlen⟩
      rw [Option.some.injEq] at hw2
      subst hw2
      rcases hc with hc | hc
      · exact absurd hc hne
      · omega
    · rw [if_neg hc]
      push_neg at hc
      refine ⟨⟨fun _ => ⟨w, rfl, hc.1, hc.2⟩, fun _ => by simp⟩, ?_⟩
      intro r hr
      rw [List.mem_singleton] at hr
      exact ⟨w, rfl, hr⟩

/-- C5 witness: a parsed article whose cleaned text is hello, five
characters, is emitted for a minimum length of three. -/
theorem C5_clean_emits_iff_witness :
    _clean_content ("7", "T", some [[Node.text "hello"]]) "en" 3 ≠ [] :=
  (C5_clean_emits_iff "7" "T" (some [[Node.text "hello"]]) "en" 3).1.mpr
    ⟨[[Node.text "hello"]], rfl, by decide, by decide⟩

/-- C10: whenever the cleaner emits a record for a raw article, the
record's key and the record's id and title fields are the input
article's id and title verbatim. -/
theorem C10_id_title_preserved (id_ title : String)
    (parsed : Option (List (List Node))) (language : String)
    (min_text_length : Nat) :
    ∀ r ∈ _clean_content (id_, title, parsed) language min_text_length,
      r.1 = id_ ∧ r.2.id = id_ ∧ r.2.title = title := by
  intro r hr
  cases parsed with
  | none => exact absurd hr (List.not_mem_nil r)
  | some w =>
    have hout : _clean_content (id_, title, some w) language min_text_length
        = if _parse_and_clean_wikicode w language = ""
            ∨ (_parse_and_clean_wikicode w language).length < min_text_length
          then []
          else [(id_, ⟨id_, _construct_url title language, title,
              _parse_and_clean_wikicode w language⟩)] := rfl
    rw [hout] at hr
    split at hr
    · exact absurd hr (List.not_mem_nil r)
    · rw [List.mem_singleton] at hr
      rw [hr]
      exact ⟨rfl, rfl, rfl⟩

/-- C10 witness: the record emitted for id 7 and title T carries id 7
and title T verbatim. -/
theorem C10_id_title_preserved_witness :
    ("7", (⟨"7", "https://en.wikisource.org/wiki/T", "T", "hello"⟩ :
        CleanedArticle)).2.id = "7"
    ∧ ("7", (⟨"7", "https://en.wikisource.org/wiki/T", "T", "hello"⟩ :
        CleanedArticle)).2.title = "T" := by
  have h := C10_id_title_preserved "7" "T" (some [[Node.text "hello"]]) "en" 0
    ("7", (⟨"7", "https://en.wikisource.org/wiki/T", "T", "hello"⟩ :
      CleanedArticle)) (by decide)
  exact ⟨h.2.1, h.2.2⟩

end Wikimedia
